import Mathlib

/-!
Verification development for the tixte export utility
(`src/tixte_exporter.py`).  The Python source is shallowly embedded:
paths and file lines are `List Char`, file contents are `List Nat`
(byte lists), the network is an oracle assigning an outcome to each
HTTP attempt, and the sequential batch driver's loop body becomes a
pure state-transition function on an explicit `DriverState`.
-/

namespace TixteExport

/-! ### Path and string primitives (POSIX `os.path`, `str.strip`) -/

/-- Characters treated as whitespace by Python's `str.strip()`
(restricted to the ASCII range, which covers the paths this tool
manipulates). -/
def isPySpace (c : Char) : Bool :=
  c = ' ' || c = '\t' || c = '\n' || c = '\r' ||
    c = Char.ofNat 0x0B || c = Char.ofNat 0x0C

/-- Python `s.strip()`: drop whitespace from both ends. -/
def pyStrip (s : List Char) : List Char :=
  ((s.dropWhile isPySpace).reverse.dropWhile isPySpace).reverse

/-- The tail component of POSIX `os.path.split(p)`: everything after the
last `'/'` (the whole string when there is no `'/'`). -/
def tailAfterSlash (s : List Char) : List Char :=
  (s.reverse.takeWhile (fun c => c ≠ '/')).reverse

/-- POSIX `os.path.dirname(p)`: everything up to the last `'/'`, with
trailing slashes removed unless the head consists only of slashes. -/
def pyDirname (s : List Char) : List Char :=
  let head := (s.reverse.dropWhile (fun c => c ≠ '/')).reverse
  if head ≠ [] && head.any (fun c => c ≠ '/') then
    (head.reverse.dropWhile (fun c => c = '/')).reverse
  else head

/-- POSIX `os.path.join(a, b)` for two components, as in
`posixpath.join`: an absolute `b` wins; otherwise a separator is
inserted unless `a` is empty or already ends in one. -/
def pyJoin (a b : List Char) : List Char :=
  if b.head? = some '/' then b
  else if a = [] || a.getLast? = some '/' then a ++ b
  else a ++ '/' :: b

/-- Split a character list on a delimiter character; the resulting
segments do not contain the delimiter.  This models how Python's
line-by-line file iteration decomposes the ledger file (the trailing
`'\n'`-terminated structure makes the final empty segment harmless,
since blank lines are skipped by the loader). -/
def splitOnChar (c : Char) : List Char → List (List Char)
  | [] => [[]]
  | x :: xs =>
    match splitOnChar c xs with
    | [] => [[]]
    | y :: ys => if x = c then [] :: y :: ys else (x :: y) :: ys

/-! ### Completion Ledger (`load_downloaded` / `save_downloaded`) -/

/-- One step of the loop body of `load_downloaded`: keep the non-blank
lines (Python's `if line.strip():`) and key each one by
`os.path.join(output_dir, os.path.split(line.strip())[1])`. -/
def loadKeysFromLines (output_dir : List Char) (lines : List (List Char)) :
    List (List Char) :=
  (lines.filter (fun l => !(pyStrip l).isEmpty)).map
    (fun l => pyJoin output_dir (tailAfterSlash (pyStrip l)))

/-- Embedding of `load_downloaded(output_dir)`.  The boolean records
whether the ledger log file exists (`os.path.exists(LOG_FILE)`); the
`content` argument is the raw text of the file. -/
def load_downloaded (logFileExists : Bool) (output_dir content : List Char) :
    List (List Char) :=
  if logFileExists then loadKeysFromLines output_dir (splitOnChar '\n' content)
  else []

/-- Embedding of `save_downloaded(file_path)`: append the path plus a
newline to the ledger log file's content. -/
def save_downloaded (content file_path : List Char) : List Char :=
  content ++ file_path ++ ['\n']

/-- Content of a ledger log file produced by a sequence of
`save_downloaded` calls starting from an absent/empty file. -/
def ledgerContent : List (List Char) → List Char
  | [] => []
  | r :: rs => r ++ '\n' :: ledgerContent rs

/-! ### URL Builder and subdomain defaulting -/

/-- Embedding of `construct_url(subdomain, filename, extension)`. -/
def construct_url (subdomain filename extension : List Char) : List Char :=
  "https://us-east-1.tixte.net/uploads/".data ++
    subdomain ++ '/' :: (filename ++ '.' :: extension)

/-- Python's `x or y` for an optional string `x` (absent and empty are
both falsy). -/
def pyOrStr (x : Option (List Char)) (y : List Char) : List Char :=
  match x with
  | some s => if s.isEmpty then y else s
  | none => y

/-- The subdomain used for a row, from line 234 of the source:
`row.get('Subdomain') or default_subdomain or ''`. -/
def subdomainFor (rowSub defaultSub : Option (List Char)) : List Char :=
  pyOrStr rowSub (pyOrStr defaultSub [])

/-- Truthiness of an optional string (`if local_check_dir and ...`). -/
def truthyOpt : Option (List Char) → Bool
  | some s => !s.isEmpty
  | none => false

/-- Embedding of `file_exists_in_directory(directory, filename)`.  The
recursive `glob` search is modelled by an oracle list `found` of the
file names present (at any depth) under the directory. -/
def file_exists_in_directory (found : List (List Char)) (filename : List Char) :
    Bool :=
  decide (filename ∈ found)

/-! ### Retrying Fetcher (`download_file`) -/

/-- Outcome of one HTTP GET attempt, as the embedding's network oracle
reports it.  `success` is an HTTP 200 whose body streams to completion;
`midStreamFail` is an HTTP 200 that opens and partially writes the
destination file before the stream breaks (an exception caught by the
retry loop); `httpError` is a non-200 status; `transportError` is a
`requests.exceptions.RequestException` or other exception raised before
the file is opened. -/
inductive AttemptOutcome where
  | success (body : List Nat)
  | midStreamFail (written : List Nat)
  | httpError (code : Nat)
  | transportError
  deriving DecidableEq

/-- The bytes an attempt writes to the destination file, when it reaches
the body-streaming phase (HTTP 200, file opened with `'wb'`). -/
def streamBytes : AttemptOutcome → Option (List Nat)
  | .success body => some body
  | .midStreamFail written => some written
  | .httpError _ => none
  | .transportError => none

/-- An attempt that falls through to the retry logic (everything except
a fully streamed HTTP 200). -/
def isFailOutcome : AttemptOutcome → Bool
  | .success _ => false
  | _ => true

/-- Observable result of a `download_file` call: the returned pair
`(ok, speed)`, the final content of the destination file (`none` when no
attempt opened it, so the path keeps its prior state), the number of
HTTP GET attempts issued, and the back-off sleeps performed between
attempts, in order. -/
structure FetchReport where
  ok : Bool
  speed : ℚ
  file : Option (List Nat)
  gets : Nat
  delays : List ℚ
  deriving DecidableEq

/-- The retry loop of `download_file`, with `fuel` the number of loop
iterations the condition `attempt <= max_retries` still allows
(`fuel = max_retries + 1 - attempt`).  `o` gives each attempt's outcome,
`sp` the timing-dependent final speed reported on a successful attempt,
`jit` the draw of `random.uniform(0, jitter)` used in the sleep after a
failed attempt, and `bd` is `base_delay`.  A failed attempt increments
`attempt` and, when the loop will run again, sleeps
`base_delay * 2 ** attempt + jitter` — at that point `attempt` is one
more than the index of the attempt that just failed. -/
def fetchGo (o : Nat → AttemptOutcome) (sp : Nat → ℚ) (jit : Nat → ℚ)
    (bd : ℚ) : Nat → Nat → Option (List Nat) → FetchReport
  | _, 0, file => ⟨false, 0, file, 0, []⟩
  | a, fuel + 1, file =>
    match o a with
    | .success body => ⟨true, sp a, some body, 1, []⟩
    | .midStreamFail w =>
      if fuel = 0 then ⟨false, 0, some w, 1, []⟩
      else
        let rest := fetchGo o sp jit bd (a + 1) fuel (some w)
        ⟨rest.ok, rest.speed, rest.file, rest.gets + 1,
          (bd * 2 ^ (a + 1) + jit a) :: rest.delays⟩
    | .httpError _ =>
      if fuel = 0 then ⟨false, 0, file, 1, []⟩
      else
        let rest := fetchGo o sp jit bd (a + 1) fuel file
        ⟨rest.ok, rest.speed, rest.file, rest.gets + 1,
          (bd * 2 ^ (a + 1) + jit a) :: rest.delays⟩
    | .transportError =>
      if fuel = 0 then ⟨false, 0, file, 1, []⟩
      else
        let rest := fetchGo o sp jit bd (a + 1) fuel file
        ⟨rest.ok, rest.speed, rest.file, rest.gets + 1,
          (bd * 2 ^ (a + 1) + jit a) :: rest.delays⟩

/-- Embedding of `download_file(url, save_path, headers, max_retries,
base_delay, jitter, ...)`: run the retry loop from `attempt = 0`, which
the condition `attempt <= max_retries` allows `max_retries + 1` times.
`file` is the destination file's content before the call. -/
def download_file (o : Nat → AttemptOutcome) (sp : Nat → ℚ) (jit : Nat → ℚ)
    (bd : ℚ) (max_retries : Nat) (file : Option (List Nat)) : FetchReport :=
  fetchGo o sp jit bd 0 (max_retries + 1) file

/-! ### Batch Driver (the loop body of `main`) -/

/-- One manifest row: `row['Filename']`, `row['Extension']`, and
`row.get('Subdomain')` (absent key ↦ `none`). -/
structure Row where
  filename : List Char
  extension : List Char
  subdomain : Option (List Char)
  deriving DecidableEq

/-- Run configuration: the CLI arguments and config keys the loop body
reads.  `localFiles` is the oracle for the recursive search under
`local_check_dir` (the file names present there). -/
structure Config where
  output : List Char
  defaultSubdomain : Option (List Char)
  localCheckDir : Option (List Char)
  localFiles : List (List Char)
  dryRun : Bool
  maxRetries : Nat
  baseDelay : ℚ
  jitterMax : ℚ
  deriving DecidableEq

/-- Per-entry nondeterminism consumed by a `download_file` call. -/
structure EntryOracle where
  outcome : Nat → AttemptOutcome
  speedOf : Nat → ℚ
  jit : Nat → ℚ

/-- Mutable state of the batch: the in-memory `downloaded` set (loaded
once at startup), the output tree (association list from path to file
content, leftmost binding authoritative), the log of `os.makedirs`
calls made for save-path parents, the paths appended to the ledger log
file, the URLs handed to the Fetcher, and the five summary counters. -/
structure DriverState where
  downloadedMem : List (List Char)
  fs : List (List Char × List Nat)
  dirsMade : List (List Char)
  ledgerFile : List (List Char)
  fetchedUrls : List (List Char)
  downloadedCount : Nat
  skippedLogged : Nat
  skippedExistsOutput : Nat
  skippedExistsLocal : Nat
  skippedDryRun : Nat
  deriving DecidableEq

/-- The save name `f"{filename}.{extension}"` of a row. -/
def saveNameOf (row : Row) : List Char :=
  row.filename ++ '.' :: row.extension

/-- The save path `os.path.join(args.output, save_name)` of a row. -/
def savePathOf (cfg : Config) (row : Row) : List Char :=
  pyJoin cfg.output (saveNameOf row)

/-- One iteration of `for row in rows:` in `main` (lines 231–295 of the
source): ensure the save path's parent directory exists, then apply the
four skip checks in order, and otherwise invoke the Fetcher, updating
the output tree, the ledger log and the counters from its result.  The
Reporter calls and the pacing sleep have no effect on this state. -/
def processRow (cfg : Config) (orc : EntryOracle) (st : DriverState)
    (row : Row) : DriverState :=
  let subdomain := subdomainFor row.subdomain cfg.defaultSubdomain
  let save_name := saveNameOf row
  let save_path := pyJoin cfg.output save_name
  let st1 := { st with dirsMade := st.dirsMade ++ [pyDirname save_path] }
  if save_path ∈ st1.downloadedMem then
    { st1 with skippedLogged := st1.skippedLogged + 1 }
  else if (st1.fs.lookup save_path).isSome then
    { st1 with skippedExistsOutput := st1.skippedExistsOutput + 1 }
  else if truthyOpt cfg.localCheckDir &&
      file_exists_in_directory cfg.localFiles save_name then
    { st1 with skippedExistsLocal := st1.skippedExistsLocal + 1 }
  else if cfg.dryRun then
    { st1 with skippedDryRun := st1.skippedDryRun + 1 }
  else
    let rep := download_file orc.outcome orc.speedOf orc.jit cfg.baseDelay
      cfg.maxRetries (st1.fs.lookup save_path)
    let st2 := { st1 with
      fetchedUrls := st1.fetchedUrls ++
        [construct_url subdomain row.filename row.extension],
      fs := match rep.file with
        | none => st1.fs
        | some bytes => (save_path, bytes) :: st1.fs }
    if rep.ok then
      { st2 with
        downloadedCount := st2.downloadedCount + 1,
        ledgerFile := st2.ledgerFile ++ [save_path] }
    else st2

/-- The whole batch loop: fold `processRow` over the manifest rows, each
paired with its network oracle. -/
def runBatch (cfg : Config) (st : DriverState) :
    List (Row × EntryOracle) → DriverState
  | [] => st
  | (row, orc) :: rest => runBatch cfg (processRow cfg orc st row) rest

/-! ### Concrete instances used by the witness theorems -/

/-- A manifest row for the file `f.png`. -/
def exRow : Row := ⟨"f".data, "png".data, none⟩

/-- A configuration with output directory `out`, no local-check
directory and dry-run off. -/
def exCfgPlain : Config := ⟨"out".data, none, none, [], false, 1, 1, 1⟩

/-- Like `exCfgPlain` but with a local-check directory configured under
which `f.png` is found. -/
def exCfgLocal : Config :=
  { exCfgPlain with localCheckDir := some "loc".data,
                    localFiles := ["f.png".data] }

/-- Like `exCfgPlain` but in dry-run mode. -/
def exCfgDry : Config := { exCfgPlain with dryRun := true }

/-- The all-zero driver state. -/
def exSt0 : DriverState := ⟨[], [], [], [], [], 0, 0, 0, 0, 0⟩

/-- A state whose Completion Ledger already lists `out/f.png`. -/
def exStLedger : DriverState :=
  { exSt0 with downloadedMem := ["out/f.png".data] }

/-- A state whose output tree already contains `out/f.png`. -/
def exStFs : DriverState := { exSt0 with fs := [("out/f.png".data, [1])] }

/-- A network oracle for which every attempt hits a transport error. -/
def orcFail : EntryOracle := ⟨fun _ => .transportError, fun _ => 0, fun _ => 1⟩

/-- A network oracle whose first attempt succeeds with body `[1, 2, 3]`. -/
def orcOk : EntryOracle := ⟨fun _ => .success [1, 2, 3], fun _ => 5, fun _ => 0⟩

/-- A network oracle whose first attempt breaks mid-stream after writing
`[9]` and whose later attempts get HTTP 500. -/
def orcMid : EntryOracle :=
  ⟨fun i => if i = 0 then .midStreamFail [9] else .httpError 500,
    fun _ => 0, fun _ => 0⟩

/-! ### Lemmas about `splitOnChar` and the ledger encoding -/

theorem splitOnChar_cons (c x : Char) (xs : List Char) :
    splitOnChar c (x :: xs) =
      match splitOnChar c xs with
      | [] => [[]]
      | y :: ys => if x = c then [] :: y :: ys else (x :: y) :: ys := rfl

theorem splitOnChar_ne_nil (c : Char) : ∀ l : List Char, splitOnChar c l ≠ []
  | [] => by simp [splitOnChar]
  | x :: xs => by
    rw [splitOnChar_cons]
    cases h : splitOnChar c xs with
    | nil => simp
    | cons y ys => dsimp only; split <;> simp

/-- Splitting a delimiter-free list yields that list as the only
segment. -/
theorem splitOnChar_of_not_mem (c : Char) :
    ∀ p : List Char, c ∉ p → splitOnChar c p = [p]
  | [], _ => rfl
  | x :: p, h => by
    rw [splitOnChar_cons, splitOnChar_of_not_mem c p (fun hc => h (.tail _ hc))]
    simp only []
    rw [if_neg (fun hx => h (by rw [hx]; exact List.mem_cons_self c p))]

/-- Splitting a delimiter-free list followed by one delimiter yields the
list and a final empty segment. -/
theorem splitOnChar_concat_of_not_mem (c : Char) (p : List Char) (h : c ∉ p) :
    splitOnChar c (p ++ [c]) = [p, []] := by
  induction p with
  | nil => simp [splitOnChar]
  | cons x p ih =>
    rw [List.cons_append, splitOnChar_cons, ih (fun hc => h (.tail _ hc))]
    simp only []
    rw [if_neg (fun hx => h (by rw [hx]; exact List.mem_cons_self c p))]

/-- A list ending in the delimiter splits into a nonempty head segment
list followed by at least one more segment. -/
theorem splitOnChar_concat_shape (c : Char) :
    ∀ t : List Char, ∃ z zs, splitOnChar c (t ++ [c]) = z :: zs ∧ zs ≠ []
  | [] => ⟨[], [[]], by simp [splitOnChar], by simp⟩
  | x :: t => by
    obtain ⟨z, zs, hz, hzs⟩ := splitOnChar_concat_shape c t
    rw [List.cons_append, splitOnChar_cons, hz]
    by_cases hx : x = c
    · exact ⟨[], z :: zs, by simp [hx], by simp⟩
    · exact ⟨x :: z, zs, by simp [hx], hzs⟩

/-- Splitting after a chunk that ends in the delimiter decomposes into
the chunk's segments (minus its trailing empty segment) followed by the
rest's segments. -/
theorem splitOnChar_append_concat (c : Char) :
    ∀ t b : List Char,
      splitOnChar c ((t ++ [c]) ++ b) =
        (splitOnChar c (t ++ [c])).dropLast ++ splitOnChar c b
  | [], b => by
    cases hb : splitOnChar c b with
    | nil => exact absurd hb (splitOnChar_ne_nil c b)
    | cons y ys =>
      simp only [List.nil_append, List.singleton_append]
      rw [splitOnChar_cons, hb]
      simp [splitOnChar]
  | x :: t, b => by
    obtain ⟨z, zs, hz, hzs⟩ := splitOnChar_concat_shape c t
    have ih := splitOnChar_append_concat c t b
    rw [hz] at ih
    obtain ⟨w, ws, hw⟩ : ∃ w ws, zs = w :: ws :=
      by cases zs with
         | nil => exact absurd rfl hzs
         | cons w ws => exact ⟨w, ws, rfl⟩
    subst hw
    rw [List.cons_append, List.cons_append, splitOnChar_cons, ih,
      splitOnChar_cons, hz]
    by_cases hx : x = c <;> simp [hx, List.dropLast_cons₂]

theorem ledgerContent_append :
    ∀ a b : List (List Char),
      ledgerContent (a ++ b) = ledgerContent a ++ ledgerContent b
  | [], _ => rfl
  | r :: a, b => by
    simp [ledgerContent, ledgerContent_append a b]

/-- A ledger log file produced by `save_downloaded` calls is empty or
ends in a newline. -/
theorem ledgerContent_shape :
    ∀ rs : List (List Char),
      ledgerContent rs = [] ∨ ∃ t, ledgerContent rs = t ++ ['\n']
  | [] => Or.inl rfl
  | r :: rs => by
    rcases ledgerContent_shape rs with h | ⟨t, ht⟩
    · exact Or.inr ⟨r, by simp [ledgerContent, h]⟩
    · exact Or.inr ⟨r ++ '\n' :: t, by simp [ledgerContent, ht]⟩

/-- Any line with non-blank stripped content contributes its key to the
loader's result. -/
theorem mem_loadKeysFromLines (output_dir l : List Char)
    (lines : List (List Char)) (hl : l ∈ lines) (h : pyStrip l ≠ []) :
    pyJoin output_dir (tailAfterSlash (pyStrip l)) ∈
      loadKeysFromLines output_dir lines := by
  refine List.mem_map_of_mem _ (List.mem_filter_of_mem hl ?_)
  simpa using h

/-! ### Lemmas about the retry loop -/

theorem fetchGo_gets_le (o : Nat → AttemptOutcome) (sp jit : Nat → ℚ)
    (bd : ℚ) :
    ∀ fuel a file, (fetchGo o sp jit bd a fuel file).gets ≤ fuel := by
  intro fuel
  induction fuel with
  | zero => intro a file; simp [fetchGo]
  | succ f ih =>
    intro a file
    cases ho : o a with
    | success body => simp [fetchGo, ho]
    | midStreamFail w =>
      by_cases h0 : f = 0
      · simp [fetchGo, ho, h0]
      · simpa [fetchGo, ho, h0] using ih (a + 1) (some w)
    | httpError code =>
      by_cases h0 : f = 0
      · simp [fetchGo, ho, h0]
      · simpa [fetchGo, ho, h0] using ih (a + 1) file
    | transportError =>
      by_cases h0 : f = 0
      · simp [fetchGo, ho, h0]
      · simpa [fetchGo, ho, h0] using ih (a + 1) file

/-- The destination file after the loop is either untouched or holds
exactly the bytes streamed by one single attempt. -/
theorem fetchGo_file_provenance (o : Nat → AttemptOutcome) (sp jit : Nat → ℚ)
    (bd : ℚ) :
    ∀ fuel a file,
      (fetchGo o sp jit bd a fuel file).file = file ∨
        ∃ i, a ≤ i ∧ i < a + fuel ∧ (streamBytes (o i)).isSome = true ∧
          (fetchGo o sp jit bd a fuel file).file = streamBytes (o i) := by
  intro fuel
  induction fuel with
  | zero => intro a file; exact Or.inl rfl
  | succ f ih =>
    intro a file
    cases ho : o a with
    | success body =>
      exact Or.inr ⟨a, le_refl a, by omega, by simp [streamBytes, ho],
        by simp [fetchGo, ho, streamBytes]⟩
    | midStreamFail w =>
      by_cases h0 : f = 0
      · exact Or.inr ⟨a, le_refl a, by omega, by simp [streamBytes, ho],
          by simp [fetchGo, ho, h0, streamBytes]⟩
      · rcases ih (a + 1) (some w) with h | ⟨i, hi1, hi2, hi3, hi4⟩
        · refine Or.inr ⟨a, le_refl a, by omega, by simp [streamBytes, ho], ?_⟩
          simp only [fetchGo, ho, if_neg h0]
          rw [h]
          simp [streamBytes]
        · refine Or.inr ⟨i, by omega, by omega, hi3, ?_⟩
          simpa [fetchGo, ho, if_neg h0] using hi4
    | httpError code =>
      by_cases h0 : f = 0
      · exact Or.inl (by simp [fetchGo, ho, h0])
      · rcases ih (a + 1) file with h | ⟨i, hi1, hi2, hi3, hi4⟩
        · exact Or.inl (by simpa [fetchGo, ho, if_neg h0] using h)
        · refine Or.inr ⟨i, by omega, by omega, hi3, ?_⟩
          simpa [fetchGo, ho, if_neg h0] using hi4
    | transportError =>
      by_cases h0 : f = 0
      · exact Or.inl (by simp [fetchGo, ho, h0])
      · rcases ih (a + 1) file with h | ⟨i, hi1, hi2, hi3, hi4⟩
        · exact Or.inl (by simpa [fetchGo, ho, if_neg h0] using h)
        · refine Or.inr ⟨i, by omega, by omega, hi3, ?_⟩
          simpa [fetchGo, ho, if_neg h0] using hi4

/-- When every attempt in range fails, the loop returns `(False, 0)`. -/
theorem fetchGo_all_fail (o : Nat → AttemptOutcome) (sp jit : Nat → ℚ)
    (bd : ℚ) :
    ∀ fuel a file,
      (∀ i, a ≤ i → i < a + fuel → isFailOutcome (o i) = true) →
      (fetchGo o sp jit bd a fuel file).ok = false ∧
        (fetchGo o sp jit bd a fuel file).speed = 0 := by
  intro fuel
  induction fuel with
  | zero => intro a file _; simp [fetchGo]
  | succ f ih =>
    intro a file hfail
    have ha : isFailOutcome (o a) = true := hfail a (le_refl a) (by omega)
    cases ho : o a with
    | success body => rw [ho] at ha; simp [isFailOutcome] at ha
    | midStreamFail w =>
      by_cases h0 : f = 0
      · simp [fetchGo, ho, h0]
      · simpa [fetchGo, ho, if_neg h0] using
          ih (a + 1) (some w) (fun i h1 h2 => hfail i (by omega) (by omega))
    | httpError code =>
      by_cases h0 : f = 0
      · simp [fetchGo, ho, h0]
      · simpa [fetchGo, ho, if_neg h0] using
          ih (a + 1) file (fun i h1 h2 => hfail i (by omega) (by omega))
    | transportError =>
      by_cases h0 : f = 0
      · simp [fetchGo, ho, h0]
      · simpa [fetchGo, ho, if_neg h0] using
          ih (a + 1) file (fun i h1 h2 => hfail i (by omega) (by omega))

/-- When every attempt fails but some attempt reached the streaming
phase (or the file already existed), a file is present afterwards. -/
theorem fetchGo_file_isSome (o : Nat → AttemptOutcome) (sp jit : Nat → ℚ)
    (bd : ℚ) :
    ∀ fuel a file,
      (file.isSome = true ∨
        ∃ i, a ≤ i ∧ i < a + fuel ∧ (streamBytes (o i)).isSome = true) →
      ((fetchGo o sp jit bd a fuel file).file).isSome = true := by
  intro fuel
  induction fuel with
  | zero =>
    intro a file h
    rcases h with h | ⟨i, hi1, hi2, _⟩
    · simpa [fetchGo] using h
    · omega
  | succ f ih =>
    intro a file h
    cases ho : o a with
    | success body => simp [fetchGo, ho]
    | midStreamFail w =>
      by_cases h0 : f = 0
      · simp [fetchGo, ho, h0]
      · simpa [fetchGo, ho, if_neg h0] using ih (a + 1) (some w) (Or.inl rfl)
    | httpError code =>
      rcases h with h | ⟨i, hi1, hi2, hi3⟩
      · by_cases h0 : f = 0
        · simpa [fetchGo, ho, h0] using h
        · simpa [fetchGo, ho, if_neg h0] using ih (a + 1) file (Or.inl h)
      · have hia : i ≠ a := by
          intro hia; rw [hia, ho] at hi3; simp [streamBytes] at hi3
        by_cases h0 : f = 0
        · omega
        · have hrec := ih (a + 1) file (Or.inr ⟨i, by omega, by omega, hi3⟩)
          simpa [fetchGo, ho, if_neg h0] using hrec
    | transportError =>
      rcases h with h | ⟨i, hi1, hi2, hi3⟩
      · by_cases h0 : f = 0
        · simpa [fetchGo, ho, h0] using h
        · simpa [fetchGo, ho, if_neg h0] using ih (a + 1) file (Or.inl h)
      · have hia : i ≠ a := by
          intro hia; rw [hia, ho] at hi3; simp [streamBytes] at hi3
        by_cases h0 : f = 0
        · omega
        · have hrec := ih (a + 1) file (Or.inr ⟨i, by omega, by omega, hi3⟩)
          simpa [fetchGo, ho, if_neg h0] using hrec

/-- A successful return leaves the streamed body at the save path. -/
theorem fetchGo_ok_file_isSome (o : Nat → AttemptOutcome) (sp jit : Nat → ℚ)
    (bd : ℚ) :
    ∀ fuel a file,
      (fetchGo o sp jit bd a fuel file).ok = true →
      ((fetchGo o sp jit bd a fuel file).file).isSome = true := by
  intro fuel
  induction fuel with
  | zero => intro a file h; simp [fetchGo] at h
  | succ f ih =>
    intro a file h
    cases ho : o a with
    | success body => simp [fetchGo, ho]
    | midStreamFail w =>
      by_cases h0 : f = 0
      · rw [fetchGo] at h; simp [ho, h0] at h
      · rw [fetchGo] at h ⊢
        simp only [ho, if_neg h0] at h ⊢
        exact ih (a + 1) (some w) h
    | httpError code =>
      by_cases h0 : f = 0
      · rw [fetchGo] at h; simp [ho, h0] at h
      · rw [fetchGo] at h ⊢
        simp only [ho, if_neg h0] at h ⊢
        exact ih (a + 1) file h
    | transportError =>
      by_cases h0 : f = 0
      · rw [fetchGo] at h; simp [ho, h0] at h
      · rw [fetchGo] at h ⊢
        simp only [ho, if_neg h0] at h ⊢
        exact ih (a + 1) file h

/-- The sleep recorded after the failed attempt `a + k` (when all
attempts up to it failed and the loop still has fuel to retry). -/
theorem fetchGo_delays_getElem (o : Nat → AttemptOutcome) (sp jit : Nat → ℚ)
    (bd : ℚ) :
    ∀ k fuel a file,
      (∀ i, a ≤ i → i ≤ a + k → isFailOutcome (o i) = true) →
      k + 2 ≤ fuel →
      (fetchGo o sp jit bd a fuel file).delays[k]? =
        some (bd * 2 ^ (a + k + 1) + jit (a + k)) := by
  intro k
  induction k with
  | zero =>
    intro fuel a file hfail hfuel
    obtain ⟨f, rfl⟩ : ∃ f, fuel = f + 1 := ⟨fuel - 1, by omega⟩
    have h0 : f ≠ 0 := by omega
    have ha : isFailOutcome (o a) = true := hfail a (le_refl a) (by omega)
    cases ho : o a with
    | success body => rw [ho] at ha; simp [isFailOutcome] at ha
    | midStreamFail w => simp [fetchGo, ho, if_neg h0]
    | httpError code => simp [fetchGo, ho, if_neg h0]
    | transportError => simp [fetchGo, ho, if_neg h0]
  | succ k ih =>
    intro fuel a file hfail hfuel
    obtain ⟨f, rfl⟩ : ∃ f, fuel = f + 1 := ⟨fuel - 1, by omega⟩
    have h0 : f ≠ 0 := by omega
    have ha : isFailOutcome (o a) = true := hfail a (le_refl a) (by omega)
    have harith : a + 1 + k = a + (k + 1) := by omega
    cases ho : o a with
    | success body => rw [ho] at ha; simp [isFailOutcome] at ha
    | midStreamFail w =>
      rw [fetchGo]
      simp only [ho, if_neg h0]
      rw [List.getElem?_cons_succ,
        ih f (a + 1) (some w) (fun i h1 h2 => hfail i (by omega) (by omega))
          (by omega), harith]
    | httpError code =>
      rw [fetchGo]
      simp only [ho, if_neg h0]
      rw [List.getElem?_cons_succ,
        ih f (a + 1) file (fun i h1 h2 => hfail i (by omega) (by omega))
          (by omega), harith]
    | transportError =>
      rw [fetchGo]
      simp only [ho, if_neg h0]
      rw [List.getElem?_cons_succ,
        ih f (a + 1) file (fun i h1 h2 => hfail i (by omega) (by omega))
          (by omega), harith]

/-! ### Lemmas about the driver loop body -/

theorem processRow_downloadedMem (cfg : Config) (orc : EntryOracle)
    (st : DriverState) (row : Row) :
    (processRow cfg orc st row).downloadedMem = st.downloadedMem := by
  simp only [processRow]
  split_ifs <;> simp

theorem runBatch_downloadedMem (cfg : Config) :
    ∀ (entries : List (Row × EntryOracle)) (st : DriverState),
      (runBatch cfg st entries).downloadedMem = st.downloadedMem
  | [], _ => rfl
  | (row, orc) :: rest, st => by
    have ih := runBatch_downloadedMem cfg rest (processRow cfg orc st row)
    simp only [runBatch]
    rw [ih, processRow_downloadedMem]

theorem processRow_skip1 (cfg : Config) (orc : EntryOracle) (st : DriverState)
    (row : Row) (h : savePathOf cfg row ∈ st.downloadedMem) :
    processRow cfg orc st row =
      { st with
          dirsMade := st.dirsMade ++ [pyDirname (savePathOf cfg row)],
          skippedLogged := st.skippedLogged + 1 } := by
  simp only [savePathOf] at h ⊢
  simp [processRow, h]

theorem processRow_skip2 (cfg : Config) (orc : EntryOracle) (st : DriverState)
    (row : Row) (h1 : savePathOf cfg row ∉ st.downloadedMem)
    (h2 : (st.fs.lookup (savePathOf cfg row)).isSome = true) :
    processRow cfg orc st row =
      { st with
          dirsMade := st.dirsMade ++ [pyDirname (savePathOf cfg row)],
          skippedExistsOutput := st.skippedExistsOutput + 1 } := by
  simp only [savePathOf] at h1 h2 ⊢
  simp [processRow, h1, h2]

theorem processRow_skip3 (cfg : Config) (orc : EntryOracle) (st : DriverState)
    (row : Row) (h1 : savePathOf cfg row ∉ st.downloadedMem)
    (h2 : (st.fs.lookup (savePathOf cfg row)).isSome = false)
    (h3 : (truthyOpt cfg.localCheckDir &&
        file_exists_in_directory cfg.localFiles (saveNameOf row)) = true) :
    processRow cfg orc st row =
      { st with
          dirsMade := st.dirsMade ++ [pyDirname (savePathOf cfg row)],
          skippedExistsLocal := st.skippedExistsLocal + 1 } := by
  simp only [savePathOf] at h1 h2 ⊢
  simp [processRow, h1, h2, h3]

theorem processRow_skip4 (cfg : Config) (orc : EntryOracle) (st : DriverState)
    (row : Row) (h1 : savePathOf cfg row ∉ st.downloadedMem)
    (h2 : (st.fs.lookup (savePathOf cfg row)).isSome = false)
    (h3 : (truthyOpt cfg.localCheckDir &&
        file_exists_in_directory cfg.localFiles (saveNameOf row)) = false)
    (h4 : cfg.dryRun = true) :
    processRow cfg orc st row =
      { st with
          dirsMade := st.dirsMade ++ [pyDirname (savePathOf cfg row)],
          skippedDryRun := st.skippedDryRun + 1 } := by
  simp only [savePathOf] at h1 h2 ⊢
  simp [processRow, h1, h2, h3, h4]

/-- When all four skip checks fail, the loop body runs the Fetcher and
updates the state from its report. -/
theorem processRow_fetch (cfg : Config) (orc : EntryOracle) (st : DriverState)
    (row : Row) (h1 : savePathOf cfg row ∉ st.downloadedMem)
    (h2 : (st.fs.lookup (savePathOf cfg row)).isSome = false)
    (h3 : (truthyOpt cfg.localCheckDir &&
        file_exists_in_directory cfg.localFiles (saveNameOf row)) = false)
    (h4 : cfg.dryRun = false) :
    processRow cfg orc st row =
      (fun rep =>
        (fun st2 =>
          if rep.ok then
            { st2 with
                downloadedCount := st2.downloadedCount + 1,
                ledgerFile := st2.ledgerFile ++ [savePathOf cfg row] }
          else st2)
        { st with
            dirsMade := st.dirsMade ++ [pyDirname (savePathOf cfg row)],
            fetchedUrls := st.fetchedUrls ++
              [construct_url (subdomainFor row.subdomain cfg.defaultSubdomain)
                row.filename row.extension],
            fs := match rep.file with
              | none => st.fs
              | some bytes => (savePathOf cfg row, bytes) :: st.fs })
      (download_file orc.outcome orc.speedOf orc.jit cfg.baseDelay
        cfg.maxRetries (st.fs.lookup (savePathOf cfg row))) := by
  simp only [savePathOf] at h1 h2 ⊢
  simp [processRow, h1, h2, h3, h4]

/-! ### Claim theorems -/

/-- C5: Ledger round-trip.  For every path `p` appended via
`save_downloaded`, a subsequent `load_downloaded(outputRoot)` returns a
set containing `join(outputRoot, filenameComponent(p))` — the recorded
entry is found again regardless of which output root was in effect when
it was recorded, because membership is keyed only by the final filename
component re-joined with the current run's output root.  The path is
assumed to be a well-formed single-line path: nonempty, free of newline
characters, and without surrounding whitespace (the loader strips each
line before splitting off the filename). -/
theorem spec_C5 (output_dir : List Char) (records : List (List Char))
    (p : List Char) (h1 : pyStrip p = p) (h2 : p ≠ []) (h3 : '\n' ∉ p) :
    pyJoin output_dir (tailAfterSlash p) ∈
      load_downloaded true output_dir (ledgerContent (records ++ [p])) := by
  have hcontent : ledgerContent (records ++ [p]) =
      ledgerContent records ++ (p ++ ['\n']) := by
    rw [ledgerContent_append]
    simp [ledgerContent]
  have hmem : p ∈ splitOnChar '\n' (ledgerContent (records ++ [p])) := by
    rw [hcontent]
    rcases ledgerContent_shape records with h | ⟨t, ht⟩
    · rw [h, List.nil_append, splitOnChar_concat_of_not_mem _ _ h3]
      simp
    · rw [ht, splitOnChar_append_concat '\n' t (p ++ ['\n']),
        splitOnChar_concat_of_not_mem _ _ h3]
      simp
  have hkey := mem_loadKeysFromLines output_dir p _ hmem
    (by rw [h1]; exact h2)
  rw [h1] at hkey
  simpa [load_downloaded] using hkey

theorem spec_C5_witness :
    (pyStrip "old/a.png".data = "old/a.png".data ∧ "old/a.png".data ≠ [] ∧
      '\n' ∉ "old/a.png".data) ∧
    pyJoin "out".data (tailAfterSlash "old/a.png".data) ∈
      load_downloaded true "out".data
        (ledgerContent ([] ++ ["old/a.png".data])) :=
  ⟨⟨by decide, by decide, by decide⟩,
    spec_C5 "out".data [] "old/a.png".data (by decide) (by decide) (by decide)⟩

/-- C6: `load_downloaded(outputRoot)` fails soft: when the ledger log
file is absent it returns the empty set; otherwise it works line by
line, skips blank lines, and maps every non-blank line (its content,
which for lines with no surrounding whitespace is exactly the stripped
line) to `join(outputRoot, filenameComponent(line))`. -/
theorem spec_C6 (output_dir : List Char) :
    (∀ content, load_downloaded false output_dir content = []) ∧
    (∀ content, load_downloaded true output_dir content =
        loadKeysFromLines output_dir (splitOnChar '\n' content)) ∧
    (∀ l1 l2 bl, pyStrip bl = [] →
        loadKeysFromLines output_dir (l1 ++ bl :: l2) =
          loadKeysFromLines output_dir (l1 ++ l2)) ∧
    (∀ lines l, l ∈ lines → pyStrip l = l → l ≠ [] →
        pyJoin output_dir (tailAfterSlash l) ∈
          loadKeysFromLines output_dir lines) := by
  refine ⟨fun _ => rfl, fun _ => rfl, ?_, ?_⟩
  · intro l1 l2 bl hbl
    simp [loadKeysFromLines, List.filter_append, hbl]
  · intro lines l hl hstrip hne
    have hkey := mem_loadKeysFromLines output_dir l lines hl
      (by rw [hstrip]; exact hne)
    rwa [hstrip] at hkey

theorem spec_C6_witness :
    (pyStrip " ".data = [] ∧
      loadKeysFromLines "out".data
          (["a.png".data] ++ " ".data :: ["b.png".data]) =
        loadKeysFromLines "out".data (["a.png".data] ++ ["b.png".data])) ∧
    pyJoin "out".data (tailAfterSlash "a.png".data) ∈
      loadKeysFromLines "out".data ["a.png".data] :=
  ⟨⟨by decide, (spec_C6 "out".data).2.2.1 _ _ _ (by decide)⟩,
    (spec_C6 "out".data).2.2.2 ["a.png".data] "a.png".data (by decide)
      (by decide) (by decide)⟩

/-- C10: a manifest row whose `Subdomain` field is present but equal to
the empty string is treated the same as an omitted `Subdomain`: the
configured default subdomain is substituted, and only when that is also
absent or empty does the URL get built with an empty subdomain segment
(a double slash in the constructed URL).  The loop body behaves
identically on the two rows. -/
theorem spec_C10 :
    (∀ d, subdomainFor (some []) d = subdomainFor none d) ∧
    (∀ s, s ≠ [] → subdomainFor (some []) (some s) = s) ∧
    (∀ d, d = none ∨ d = some [] → subdomainFor (some []) d = []) ∧
    (∀ fn ext, construct_url (subdomainFor (some []) none) fn ext =
        "https://us-east-1.tixte.net/uploads//".data ++ (fn ++ '.' :: ext)) ∧
    (∀ cfg orc st fn ext,
        processRow cfg orc st ⟨fn, ext, some []⟩ =
          processRow cfg orc st ⟨fn, ext, none⟩) := by
  refine ⟨fun d => rfl, ?_, ?_, ?_, ?_⟩
  · intro s hs
    simp [subdomainFor, pyOrStr, hs]
  · intro d hd
    rcases hd with rfl | rfl <;> rfl
  · intro fn ext
    rfl
  · intro cfg orc st fn ext
    rfl

theorem spec_C10_witness :
    ("sub".data ≠ [] ∧
      subdomainFor (some []) (some "sub".data) = "sub".data) ∧
    subdomainFor (some []) (some []) = [] :=
  ⟨⟨by decide, spec_C10.2.1 "sub".data (by decide)⟩,
    spec_C10.2.2.1 (some []) (Or.inr rfl)⟩

/-- C1: for every manifest entry the four skip checks are applied in the
exact order (1) ledger membership, (2) save path exists in the output
tree, (3) local-check directory configured and the Prober finds the
filename, (4) dry-run; the first matching rule increments only its own
counter and the entry advances without the Fetcher being called (the
full post-state equality shows every other field, including the fetch
log, unchanged).  In particular, for a target matching both rule 2 and
rule 3, rule 2 wins and the local-dir counter is not incremented. -/
theorem spec_C1 (cfg : Config) (orc : EntryOracle) (st : DriverState)
    (row : Row) :
    (savePathOf cfg row ∈ st.downloadedMem →
      processRow cfg orc st row =
        { st with
            dirsMade := st.dirsMade ++ [pyDirname (savePathOf cfg row)],
            skippedLogged := st.skippedLogged + 1 }) ∧
    (savePathOf cfg row ∉ st.downloadedMem →
      (st.fs.lookup (savePathOf cfg row)).isSome = true →
      processRow cfg orc st row =
        { st with
            dirsMade := st.dirsMade ++ [pyDirname (savePathOf cfg row)],
            skippedExistsOutput := st.skippedExistsOutput + 1 }) ∧
    (savePathOf cfg row ∉ st.downloadedMem →
      (st.fs.lookup (savePathOf cfg row)).isSome = false →
      (truthyOpt cfg.localCheckDir &&
          file_exists_in_directory cfg.localFiles (saveNameOf row)) = true →
      processRow cfg orc st row =
        { st with
            dirsMade := st.dirsMade ++ [pyDirname (savePathOf cfg row)],
            skippedExistsLocal := st.skippedExistsLocal + 1 }) ∧
    (savePathOf cfg row ∉ st.downloadedMem →
      (st.fs.lookup (savePathOf cfg row)).isSome = false →
      (truthyOpt cfg.localCheckDir &&
          file_exists_in_directory cfg.localFiles (saveNameOf row)) = false →
      cfg.dryRun = true →
      processRow cfg orc st row =
        { st with
            dirsMade := st.dirsMade ++ [pyDirname (savePathOf cfg row)],
            skippedDryRun := st.skippedDryRun + 1 }) ∧
    (savePathOf cfg row ∉ st.downloadedMem →
      (st.fs.lookup (savePathOf cfg row)).isSome = true →
      (truthyOpt cfg.localCheckDir &&
          file_exists_in_directory cfg.localFiles (saveNameOf row)) = true →
      processRow cfg orc st row =
        { st with
            dirsMade := st.dirsMade ++ [pyDirname (savePathOf cfg row)],
            skippedExistsOutput := st.skippedExistsOutput + 1 } ∧
      (processRow cfg orc st row).skippedExistsLocal =
        st.skippedExistsLocal) := by
  refine ⟨processRow_skip1 cfg orc st row,
    processRow_skip2 cfg orc st row,
    processRow_skip3 cfg orc st row,
    processRow_skip4 cfg orc st row, ?_⟩
  intro h1 h2 _h3
  refine ⟨processRow_skip2 cfg orc st row h1 h2, ?_⟩
  rw [processRow_skip2 cfg orc st row h1 h2]

theorem spec_C1_witness :
    (savePathOf exCfgLocal exRow ∉ exStFs.downloadedMem ∧
      (exStFs.fs.lookup (savePathOf exCfgLocal exRow)).isSome = true ∧
      (truthyOpt exCfgLocal.localCheckDir &&
        file_exists_in_directory exCfgLocal.localFiles
          (saveNameOf exRow)) = true) ∧
    (processRow exCfgLocal orcFail exStFs exRow =
        { exStFs with
            dirsMade := exStFs.dirsMade ++
              [pyDirname (savePathOf exCfgLocal exRow)],
            skippedExistsOutput := exStFs.skippedExistsOutput + 1 } ∧
      (processRow exCfgLocal orcFail exStFs exRow).skippedExistsLocal =
        exStFs.skippedExistsLocal) :=
  ⟨⟨by decide, by decide, by decide⟩,
    (spec_C1 exCfgLocal orcFail exStFs exRow).2.2.2.2
      (by decide) (by decide) (by decide)⟩

/-- C7 counterexample: the claim says an entry stopped by skip rules 1–4
advances without any directory creation for its save path, but on an
entry stopped by rule 1 (already in the Completion Ledger) the loop body
has already called `os.makedirs(os.path.dirname(save_path), ...)`
(line 239 runs before the skip checks): the makedirs log grows by the
save path's parent `out` even though the entry was skipped. -/
theorem spec_C7_counterexample :
    savePathOf exCfgPlain exRow ∈ exStLedger.downloadedMem ∧
    (processRow exCfgPlain orcFail exStLedger exRow).skippedLogged =
      exStLedger.skippedLogged + 1 ∧
    (processRow exCfgPlain orcFail exStLedger exRow).dirsMade =
      exStLedger.dirsMade ++ ["out".data] := by
  decide

/-- C7 (amended): parent-directory creation for an entry's save path
happens for every entry, at the top of the loop body and before the four
skip checks — not only in step 5 for entries handed to the Fetcher; an
entry stopped by a skip rule has still had its save path's parent
directory ensured. -/
theorem spec_C7 (cfg : Config) (orc : EntryOracle) (st : DriverState)
    (row : Row) :
    (processRow cfg orc st row).dirsMade =
      st.dirsMade ++ [pyDirname (savePathOf cfg row)] := by
  simp only [processRow, savePathOf]
  split_ifs <;> simp

/-- C2: for every `fetch` call with `maxRetries ≥ 0` (all naturals), at
most `maxRetries + 1` HTTP GET attempts are issued, and the destination
file is never a merge of bytes from two attempts: the final content is
either the untouched prior state (when no attempt reached the streaming
phase) or exactly the bytes streamed by one single attempt, because
every attempt that reaches the body-streaming phase opens the file fresh
with truncation. -/
theorem spec_C2 (o : Nat → AttemptOutcome) (sp jit : Nat → ℚ) (bd : ℚ)
    (max_retries : Nat) (f0 : Option (List Nat)) :
    (download_file o sp jit bd max_retries f0).gets ≤ max_retries + 1 ∧
    ((download_file o sp jit bd max_retries f0).file = f0 ∨
      ∃ a, a ≤ max_retries ∧ (streamBytes (o a)).isSome = true ∧
        (download_file o sp jit bd max_retries f0).file = streamBytes (o a)) := by
  constructor
  · exact fetchGo_gets_le o sp jit bd (max_retries + 1) 0 f0
  · rcases fetchGo_file_provenance o sp jit bd (max_retries + 1) 0 f0 with
      h | ⟨i, _hi1, hi2, hi3, hi4⟩
    · exact Or.inl h
    · exact Or.inr ⟨i, by omega, hi3, hi4⟩

/-- C3: `fetch` never raises for a non-200 status or a transport error —
every such outcome is absorbed inside the retry loop (the embedding is a
total function on failure oracles) — and when every permitted attempt
fails, including the final one at `attempt == maxRetries`, it returns
`(False, 0)`; in that case the driver appends nothing to the ledger log
and leaves the downloaded counter unchanged. -/
theorem spec_C3 (cfg : Config) (orc : EntryOracle) (st : DriverState)
    (row : Row) (f0 : Option (List Nat))
    (hfail : ∀ i, i ≤ cfg.maxRetries → isFailOutcome (orc.outcome i) = true) :
    (download_file orc.outcome orc.speedOf orc.jit cfg.baseDelay
      cfg.maxRetries f0).ok = false ∧
    (download_file orc.outcome orc.speedOf orc.jit cfg.baseDelay
      cfg.maxRetries f0).speed = 0 ∧
    (processRow cfg orc st row).ledgerFile = st.ledgerFile ∧
    (processRow cfg orc st row).downloadedCount = st.downloadedCount := by
  have hff : ∀ f0' : Option (List Nat),
      (download_file orc.outcome orc.speedOf orc.jit cfg.baseDelay
        cfg.maxRetries f0').ok = false ∧
      (download_file orc.outcome orc.speedOf orc.jit cfg.baseDelay
        cfg.maxRetries f0').speed = 0 := fun f0' =>
    fetchGo_all_fail orc.outcome orc.speedOf orc.jit cfg.baseDelay
      (cfg.maxRetries + 1) 0 f0' (fun i _h1 h2 => hfail i (by omega))
  refine ⟨(hff f0).1, (hff f0).2, ?_⟩
  by_cases h1 : savePathOf cfg row ∈ st.downloadedMem
  · rw [processRow_skip1 cfg orc st row h1]
    exact ⟨rfl, rfl⟩
  by_cases h2 : (st.fs.lookup (savePathOf cfg row)).isSome = true
  · rw [processRow_skip2 cfg orc st row h1 h2]
    exact ⟨rfl, rfl⟩
  have h2' : (st.fs.lookup (savePathOf cfg row)).isSome = false := by
    rwa [Bool.not_eq_true] at h2
  by_cases h3 : (truthyOpt cfg.localCheckDir &&
      file_exists_in_directory cfg.localFiles (saveNameOf row)) = true
  · rw [processRow_skip3 cfg orc st row h1 h2' h3]
    exact ⟨rfl, rfl⟩
  have h3' : (truthyOpt cfg.localCheckDir &&
      file_exists_in_directory cfg.localFiles (saveNameOf row)) = false := by
    rwa [Bool.not_eq_true] at h3
  by_cases h4 : cfg.dryRun = true
  · rw [processRow_skip4 cfg orc st row h1 h2' h3' h4]
    exact ⟨rfl, rfl⟩
  have h4' : cfg.dryRun = false := by rwa [Bool.not_eq_true] at h4
  rw [processRow_fetch cfg orc st row h1 h2' h3' h4']
  simp [(hff (st.fs.lookup (savePathOf cfg row))).1]

theorem spec_C3_witness :
    (∀ i, i ≤ exCfgPlain.maxRetries →
      isFailOutcome (orcFail.outcome i) = true) ∧
    (download_file orcFail.outcome orcFail.speedOf orcFail.jit
      exCfgPlain.baseDelay exCfgPlain.maxRetries none).ok = false ∧
    (processRow exCfgPlain orcFail exSt0 exRow).ledgerFile =
      exSt0.ledgerFile :=
  ⟨by decide,
    (spec_C3 exCfgPlain orcFail exSt0 exRow none (by decide)).1,
    (spec_C3 exCfgPlain orcFail exSt0 exRow none (by decide)).2.2.1⟩

/-- C4: after the failed attempt numbered `a` (0-based, `a < maxRetries`)
the loop sleeps exactly `baseDelay * 2 ^ (a + 1)` plus the jitter drawn
from `[0, jitterMax]`: the sleep before the first retry already doubles
`baseDelay`, and the exponent grows without an upper cap. -/
theorem spec_C4 (o : Nat → AttemptOutcome) (sp jit : Nat → ℚ) (bd jmax : ℚ)
    (max_retries a : Nat) (f0 : Option (List Nat))
    (hfail : ∀ i, i ≤ a → isFailOutcome (o i) = true)
    (ha : a < max_retries)
    (hj : 0 ≤ jit a ∧ jit a ≤ jmax) :
    ∃ j, 0 ≤ j ∧ j ≤ jmax ∧
      (download_file o sp jit bd max_retries f0).delays[a]? =
        some (bd * 2 ^ (a + 1) + j) := by
  refine ⟨jit a, hj.1, hj.2, ?_⟩
  have h := fetchGo_delays_getElem o sp jit bd a (max_retries + 1) 0 f0
    (fun i _h1 h2 => hfail i (by omega)) (by omega)
  simpa [download_file] using h

theorem spec_C4_witness :
    ((∀ i, i ≤ 0 → isFailOutcome (orcFail.outcome i) = true) ∧
      0 < 1 ∧ (0 ≤ orcFail.jit 0 ∧ orcFail.jit 0 ≤ 1)) ∧
    ∃ j, 0 ≤ j ∧ j ≤ (1 : ℚ) ∧
      (download_file orcFail.outcome orcFail.speedOf orcFail.jit 2 1
        none).delays[0]? = some (2 * 2 ^ (0 + 1) + j) :=
  ⟨⟨by decide, by decide, ⟨zero_le_one, le_refl 1⟩⟩,
    spec_C4 orcFail.outcome orcFail.speedOf orcFail.jit 2 1 1 0 none
      (by decide) (by decide) ⟨zero_le_one, le_refl 1⟩⟩

/-- C8: when an attempt gets HTTP 200 and then fails mid-stream, the
destination file has already been opened with truncation and partially
written; on retry exhaustion `fetch` returns failure without deleting
the partial file (the driver neither counts a download nor writes the
ledger), the partial file persists at the save path, and a subsequent
run of the same entry skips it under the exists-in-output rule instead
of re-downloading it. -/
theorem spec_C8 (cfg : Config) (orc : EntryOracle) (st : DriverState)
    (row : Row)
    (h1 : savePathOf cfg row ∉ st.downloadedMem)
    (h2 : st.fs.lookup (savePathOf cfg row) = none)
    (h3 : (truthyOpt cfg.localCheckDir &&
        file_exists_in_directory cfg.localFiles (saveNameOf row)) = false)
    (h4 : cfg.dryRun = false)
    (hfail : ∀ i, i ≤ cfg.maxRetries → isFailOutcome (orc.outcome i) = true)
    (hmid : ∃ i, i ≤ cfg.maxRetries ∧
      (streamBytes (orc.outcome i)).isSome = true) :
    (processRow cfg orc st row).downloadedCount = st.downloadedCount ∧
    (processRow cfg orc st row).ledgerFile = st.ledgerFile ∧
    ((processRow cfg orc st row).fs.lookup
      (savePathOf cfg row)).isSome = true ∧
    ∀ orc2, processRow cfg orc2 (processRow cfg orc st row) row =
      { processRow cfg orc st row with
          dirsMade := (processRow cfg orc st row).dirsMade ++
            [pyDirname (savePathOf cfg row)],
          skippedExistsOutput :=
            (processRow cfg orc st row).skippedExistsOutput + 1 } := by
  have h2' : (st.fs.lookup (savePathOf cfg row)).isSome = false := by
    rw [h2]; rfl
  have hfold := processRow_fetch cfg orc st row h1 h2' h3 h4
  rw [h2] at hfold
  have hok : (download_file orc.outcome orc.speedOf orc.jit cfg.baseDelay
      cfg.maxRetries none).ok = false :=
    (fetchGo_all_fail orc.outcome orc.speedOf orc.jit cfg.baseDelay
      (cfg.maxRetries + 1) 0 none (fun i _hi1 hi2 => hfail i (by omega))).1
  obtain ⟨i, hi, hsi⟩ := hmid
  have hsome : ((download_file orc.outcome orc.speedOf orc.jit cfg.baseDelay
      cfg.maxRetries none).file).isSome = true :=
    fetchGo_file_isSome orc.outcome orc.speedOf orc.jit cfg.baseDelay
      (cfg.maxRetries + 1) 0 none (Or.inr ⟨i, by omega, by omega, hsi⟩)
  obtain ⟨bytes, hbytes⟩ := Option.isSome_iff_exists.mp hsome
  have hres : processRow cfg orc st row =
      { st with
          dirsMade := st.dirsMade ++ [pyDirname (savePathOf cfg row)],
          fetchedUrls := st.fetchedUrls ++
            [construct_url (subdomainFor row.subdomain cfg.defaultSubdomain)
              row.filename row.extension],
          fs := (savePathOf cfg row, bytes) :: st.fs } := by
    rw [hfold]
    simp [hok, hbytes]
  refine ⟨by rw [hres], by rw [hres], by rw [hres]; simp, ?_⟩
  intro orc2
  have hmem2 : savePathOf cfg row ∉ (processRow cfg orc st row).downloadedMem := by
    rw [processRow_downloadedMem]; exact h1
  have hfs2 : ((processRow cfg orc st row).fs.lookup
      (savePathOf cfg row)).isSome = true := by
    rw [hres]; simp
  exact processRow_skip2 cfg orc2 (processRow cfg orc st row) row hmem2 hfs2

theorem spec_C8_witness :
    (savePathOf exCfgPlain exRow ∉ exSt0.downloadedMem ∧
      exSt0.fs.lookup (savePathOf exCfgPlain exRow) = none ∧
      (∀ i, i ≤ exCfgPlain.maxRetries →
        isFailOutcome (orcMid.outcome i) = true) ∧
      (streamBytes (orcMid.outcome 0)).isSome = true) ∧
    ((processRow exCfgPlain orcMid exSt0 exRow).fs.lookup
      (savePathOf exCfgPlain exRow)).isSome = true :=
  ⟨⟨by decide, by decide, by decide, by decide⟩,
    (spec_C8 exCfgPlain orcMid exSt0 exRow (by decide) (by decide) (by decide)
      (by decide) (by decide) ⟨0, by decide, by decide⟩).2.2.1⟩

/-- C9: the in-memory ledger set loaded at startup is never mutated
during the batch (successes are appended only to the log file), so when
two manifest rows in the same run yield the same save path and the first
is downloaded, the second is skipped by the exists-in-output rule (its
counter increments) and not by the already-downloaded rule. -/
theorem spec_C9 (cfg : Config) (st : DriverState) :
    (∀ entries, (runBatch cfg st entries).downloadedMem = st.downloadedMem) ∧
    (∀ orc1 orc2 r1 r2,
      savePathOf cfg r2 = savePathOf cfg r1 →
      savePathOf cfg r1 ∉ st.downloadedMem →
      st.fs.lookup (savePathOf cfg r1) = none →
      (truthyOpt cfg.localCheckDir &&
        file_exists_in_directory cfg.localFiles (saveNameOf r1)) = false →
      cfg.dryRun = false →
      (download_file orc1.outcome orc1.speedOf orc1.jit cfg.baseDelay
        cfg.maxRetries none).ok = true →
      (processRow cfg orc1 st r1).downloadedCount = st.downloadedCount + 1 ∧
      (processRow cfg orc1 st r1).ledgerFile =
        st.ledgerFile ++ [savePathOf cfg r1] ∧
      (processRow cfg orc2 (processRow cfg orc1 st r1) r2).skippedExistsOutput =
        st.skippedExistsOutput + 1 ∧
      (processRow cfg orc2 (processRow cfg orc1 st r1) r2).skippedLogged =
        st.skippedLogged ∧
      (processRow cfg orc2 (processRow cfg orc1 st r1) r2).downloadedMem =
        st.downloadedMem) := by
  constructor
  · intro entries
    exact runBatch_downloadedMem cfg entries st
  · intro orc1 orc2 r1 r2 hpath h1 h2 h3 h4 hok
    have h2' : (st.fs.lookup (savePathOf cfg r1)).isSome = false := by
      rw [h2]; rfl
    have hfold := processRow_fetch cfg orc1 st r1 h1 h2' h3 h4
    rw [h2] at hfold
    have hsome : ((download_file orc1.outcome orc1.speedOf orc1.jit
        cfg.baseDelay cfg.maxRetries none).file).isSome = true :=
      fetchGo_ok_file_isSome orc1.outcome orc1.speedOf orc1.jit cfg.baseDelay
        (cfg.maxRetries + 1) 0 none hok
    obtain ⟨bytes, hbytes⟩ := Option.isSome_iff_exists.mp hsome
    have hres : processRow cfg orc1 st r1 =
        { st with
            dirsMade := st.dirsMade ++ [pyDirname (savePathOf cfg r1)],
            fetchedUrls := st.fetchedUrls ++
              [construct_url (subdomainFor r1.subdomain cfg.defaultSubdomain)
                r1.filename r1.extension],
            fs := (savePathOf cfg r1, bytes) :: st.fs,
            downloadedCount := st.downloadedCount + 1,
            ledgerFile := st.ledgerFile ++ [savePathOf cfg r1] } := by
      rw [hfold]
      simp [hok, hbytes]
    have hmem2 : savePathOf cfg r2 ∉
        (processRow cfg orc1 st r1).downloadedMem := by
      rw [processRow_downloadedMem, hpath]; exact h1
    have hfs2 : ((processRow cfg orc1 st r1).fs.lookup
        (savePathOf cfg r2)).isSome = true := by
      rw [hres, hpath]; simp
    have hskip2 := processRow_skip2 cfg orc2 (processRow cfg orc1 st r1) r2
      hmem2 hfs2
    refine ⟨by rw [hres], by rw [hres], ?_, ?_, ?_⟩
    · rw [hskip2]
      simp [hres]
    · rw [hskip2]
      simp [hres]
    · rw [hskip2]
      simp [processRow_downloadedMem]

theorem spec_C9_witness :
    ((download_file orcOk.outcome orcOk.speedOf orcOk.jit exCfgPlain.baseDelay
        exCfgPlain.maxRetries none).ok = true ∧
      savePathOf exCfgPlain exRow ∉ exSt0.downloadedMem) ∧
    (processRow exCfgPlain orcFail (processRow exCfgPlain orcOk exSt0 exRow)
        exRow).skippedExistsOutput = exSt0.skippedExistsOutput + 1 ∧
    (processRow exCfgPlain orcFail (processRow exCfgPlain orcOk exSt0 exRow)
        exRow).skippedLogged = exSt0.skippedLogged :=
  ⟨⟨by decide, by decide⟩,
    ((spec_C9 exCfgPlain exSt0).2 orcOk orcFail exRow exRow rfl (by decide)
      (by decide) (by decide) (by decide) (by decide)).2.2.1,
    ((spec_C9 exCfgPlain exSt0).2 orcOk orcFail exRow exRow rfl (by decide)
      (by decide) (by decide) (by decide) (by decide)).2.2.2.1⟩

end TixteExport
